import Mathlib

/-
Verification development for the AWS bid advisor
(src/cloud_provider/aws/aws_bid_advisor.py).

The module keeps two shared caches - an on-demand price dictionary and a
spot price sample list - refreshed by two background threads, and answers
get_new_bid(zones, instance_type) queries from them.

Modelling conventions:
  * Python prices (strings converted via float) are rationals.
  * Python dynamic values that may be a float or None are an explicit
    PyNum type with constructors for None and for a number.  The program
    runs under Python 2, where the comparison None > x is False for every
    float x; the embedding makes that explicit at each comparison site.
  * The on-demand price dictionary is an association list with unique
    keys, updated in place by dictSet.
  * The refresher loops are embedded as folds over the list of per-cycle
    fetch outcomes.
-/

namespace AwsBidAdvisor

/-- Character-list version of Python string containment: does the second
list start with the first? -/
def startsWithChars : List Char → List Char → Bool
  | [], _ => true
  | _ :: _, [] => false
  | a :: as, b :: bs => a == b && startsWithChars as bs

/-- Character-list version of Python substring containment. -/
def containsChars (p : List Char) : List Char → Bool
  | [] => p.isEmpty
  | c :: rest => startsWithChars p (c :: rest) || containsChars p rest

/-- Python `pat in hay` on strings (substring containment). -/
def strContains (hay pat : String) : Bool :=
  containsChars pat.toList hay.toList

/-- Source constant HOURLY_TERM_CODE. -/
def HOURLY_TERM_CODE : String := "JRTCKXETXF"

/-- Source constant RATE_CODE. -/
def RATE_CODE : String := "6YS6EN2CT7"

/-- One row of the on-demand pricing csv, restricted to the fields that
parse_price_row reads.  PricePerUnit is the rational value of the price
string (the code compares prices through float conversion). -/
structure PriceRow where
  rateCode : String
  termType : String
  priceDescription : String
  location : String
  operatingSystem : String
  preInstalledSW : String
  tenancy : String
  pricePerUnit : ℚ
  instanceType : String
deriving DecidableEq

/-- The guard of parse_price_row (src lines 109-115), with the region's
full name passed in for AWS_REGIONS[self.bid_advisor.region]. -/
def rowMatches (regionFullName : String) (row : PriceRow) : Bool :=
  strContains row.rateCode (HOURLY_TERM_CODE ++ "." ++ RATE_CODE) &&
  strContains row.termType "OnDemand" &&
  strContains row.priceDescription "On Demand" &&
  strContains row.location regionFullName &&
  (row.operatingSystem == "Linux") &&
  (row.preInstalledSW == "NA") &&
  (row.tenancy == "Shared")

/-- Python dict lookup d.get(k, None) on the association list model. -/
def dictGet : List (String × ℚ) → String → Option ℚ
  | [], _ => none
  | (k1, v1) :: rest, k => if k1 = k then some v1 else dictGet rest k

/-- Python dict assignment d[k] = v on the association list model. -/
def dictSet : List (String × ℚ) → String → ℚ → List (String × ℚ)
  | [], k, v => [(k, v)]
  | (k1, v1) :: rest, k, v =>
    if k1 = k then (k, v) :: rest else (k1, v1) :: dictSet rest k v

/-- OnDemandUpdater.parse_price_row (src lines 107-127): reconcile one csv
row into the on-demand price dictionary.  If the row passes the guard:
insert when the type is absent; keep the old value when the new price is
exactly 0; replace when the new price is strictly greater than the old;
otherwise keep the old value. -/
def parse_price_row (regionFullName : String) (d : List (String × ℚ))
    (row : PriceRow) : List (String × ℚ) :=
  if rowMatches regionFullName row then
    match dictGet d row.instanceType with
    | none => dictSet d row.instanceType row.pricePerUnit
    | some old =>
      if row.pricePerUnit = 0 then d
      else if old < row.pricePerUnit then
        dictSet d row.instanceType row.pricePerUnit
      else d
  else d

/-- One fetch pass of OnDemandUpdater.get_on_demand_pricing (src lines
141-143): fold parse_price_row over the rows of the downloaded csv.  The
dictionary is the thread's persistent state and is never cleared between
passes. -/
def run_pass (regionFullName : String) (d : List (String × ℚ))
    (rows : List PriceRow) : List (String × ℚ) :=
  rows.foldl (parse_price_row regionFullName) d

/-- One element of spot_price_list, restricted to the fields the advisor
reads.  The timestamp is an abstract natural number. -/
structure SpotSample where
  instanceType : String
  availabilityZone : String
  spotPrice : ℚ
  timestamp : ℕ
deriving DecidableEq

/-- A Python value that is either a float or None. -/
inductive PyNum where
  | none
  | num (q : ℚ)
deriving DecidableEq

/-- Lift an optional rational to a Python float-or-None value. -/
def pyOfOpt : Option ℚ → PyNum
  | Option.none => PyNum.none
  | Option.some q => PyNum.num q

/-- get_spot_instance_price (src lines 292-302): return the price of the
first sample in the list matching the instance type and zone, or None. -/
def get_spot_instance_price (l : List SpotSample) (it zone : String) : PyNum :=
  match l with
  | [] => PyNum.none
  | s :: rest =>
    if s.instanceType = it ∧ s.availabilityZone = zone then PyNum.num s.spotPrice
    else get_spot_instance_price rest it zone

/-- The loop of get_max_spot_prices_from_zones (src lines 305-309).
max_spot_price starts at 0.0; for each zone the first-match price tmp is
compared with `tmp > max_spot_price`.  Under Python 2 a None tmp compares
as less than every float, so a zone with no matching sample leaves the
running maximum unchanged. -/
def goMax (l : List SpotSample) (it : String) : List String → ℚ → ℚ
  | [], m => m
  | z :: zs, m =>
    match get_spot_instance_price l it z with
    | PyNum.none => goMax l it zs m
    | PyNum.num q => goMax l it zs (if m < q then q else m)

/-- get_max_spot_prices_from_zones (src lines 304-311), as the Python
float-or-None value it returns. -/
def get_max_spot_prices_from_zones (l : List SpotSample) (it : String)
    (zones : List String) : PyNum :=
  PyNum.num (goMax l it zones 0)

/-- get_on_demand_price (src lines 283-290). -/
def get_on_demand_price (d : List (String × ℚ)) (it : String) : Option ℚ :=
  dictGet d it

/-- The bid type field of the returned dictionary. -/
inductive BidType where
  | spot
  | onDemand
deriving DecidableEq

/-- The price field of a bid dictionary: absent (the key is missing, as in
DEFAULT_BID), the empty string, or a numeric price (the value denoted by
str(on_demand_price)). -/
inductive PriceField where
  | absent
  | empty
  | val (q : ℚ)
deriving DecidableEq

/-- A bid dictionary. -/
structure BidInfo where
  type : BidType
  price : PriceField
deriving DecidableEq

/-- Source constant DEFAULT_BID (src line 52): on-demand, no price key. -/
def DEFAULT_BID : BidInfo := ⟨BidType.onDemand, PriceField.absent⟩

/-- The bid_options dictionary passed to the strategy. -/
structure BidOptions where
  spot_to_on_demand_threshold : ℚ
deriving DecidableEq

/-- basic_bid_strategy (src lines 242-271): spot at the on-demand price
when spot_price is at most threshold times on_demand_price, otherwise
on-demand with an empty price. -/
def basic_bid_strategy (spot_price on_demand_price : ℚ)
    (bid_options : BidOptions) : BidInfo :=
  if spot_price ≤ bid_options.spot_to_on_demand_threshold * on_demand_price then
    ⟨BidType.spot, PriceField.val on_demand_price⟩
  else
    ⟨BidType.onDemand, PriceField.empty⟩

/-- get_new_bid (src lines 313-350) as a pure function of the cache state
(on-demand dictionary and spot price list) and the request. -/
def get_new_bid (d : List (String × ℚ)) (l : List SpotSample)
    (zones : List String) (it : String) : BidInfo :=
  if d.isEmpty || l.isEmpty then DEFAULT_BID
  else
    match get_max_spot_prices_from_zones l it zones with
    | PyNum.none => DEFAULT_BID
    | PyNum.num sp =>
      match get_on_demand_price d it with
      | Option.none => DEFAULT_BID
      | Option.some od => basic_bid_strategy sp od ⟨(0.8 : ℚ)⟩

/-- State of the SpotInstancePriceUpdater.run loop (src lines 199-208):
the shared spot price list together with a flag recording that the run
method exited by raising an exception (which ends the thread). -/
structure SpotRunState where
  spot_price_list : List SpotSample
  raised : Bool
deriving DecidableEq

/-- One cycle of SpotInstancePriceUpdater.run.  The input is the outcome
of get_spot_price_info for that cycle: ok with the fetched list (which is
swapped into the cache under the lock), or error when the fetch still
fails after its bounded retries.  On error the except clause raises a new
exception, so the run method terminates and no later cycle runs. -/
def spotRunCycle (st : SpotRunState) (fetch : Except String (List SpotSample)) :
    SpotRunState :=
  if st.raised then st
  else
    match fetch with
    | Except.ok info => ⟨info, false⟩
    | Except.error _ => ⟨st.spot_price_list, true⟩

/-- SpotInstancePriceUpdater.run over a sequence of per-cycle fetch
outcomes. -/
def spotRun (st : SpotRunState) (fs : List (Except String (List SpotSample))) :
    SpotRunState :=
  fs.foldl spotRunCycle st

/-- Modelled from the spec: the constants module (not under src) defines
SECONDS_PER_MINUTE; per its name and the retry log message of
OnDemandUpdater.run ("Retrying after 2 minutes") it is 60. -/
def SECONDS_PER_MINUTE : ℕ := 60

/-- The sleep durations of OnDemandUpdater.run (src lines 147-160) over a
sequence of per-cycle fetch outcomes (true = get_on_demand_pricing
succeeded).  Each cycle sets on_demand_refresh_interval before sleeping:
back to the original interval on success, to 2 * SECONDS_PER_MINUTE on
failure; the finally clause then sleeps for the current interval. -/
def on_demand_sleeps (orig : ℕ) : List Bool → List ℕ
  | [] => []
  | ok :: rest =>
    (if ok then orig else 2 * SECONDS_PER_MINUTE) :: on_demand_sleeps orig rest

/-- An atomic action on the shared price cache, as performed by the two
updater threads. -/
inductive CacheAct where
  | acquire
  | release
  | writeRow (r : PriceRow)
  | writeSpotList (l : List SpotSample)
deriving DecidableEq

/-- The shared cache: on-demand price dictionary and spot price list. -/
abbrev CacheState := (List (String × ℚ)) × List SpotSample

/-- Effect of one atomic cache action. -/
def applyCacheAct (regionFullName : String) (st : CacheState) :
    CacheAct → CacheState
  | CacheAct.writeRow r => (parse_price_row regionFullName st.1 r, st.2)
  | CacheAct.writeSpotList sl => (st.1, sl)
  | CacheAct.acquire => st
  | CacheAct.release => st

/-- The action trace of one on-demand fetch pass: parse_price_row (src
lines 107-127) mutates on_demand_price_dict once per matching row and
acquires no lock anywhere. -/
def onDemandPassActs (rows : List PriceRow) : List CacheAct :=
  rows.map CacheAct.writeRow

/-- The action trace of the spot cache update in get_spot_price_info (src
lines 195-196): the list swap happens while holding bid_advisor.lock. -/
def spotWriteActs (l : List SpotSample) : List CacheAct :=
  [CacheAct.acquire, CacheAct.writeSpotList l, CacheAct.release]

/-- Does every cache write in the trace happen while the lock is held?
The first argument is the lock depth already held. -/
def writesLocked (d : ℕ) : List CacheAct → Bool
  | [] => true
  | CacheAct.acquire :: rest => writesLocked (d + 1) rest
  | CacheAct.release :: rest => writesLocked (d - 1) rest
  | CacheAct.writeRow _ :: rest => decide (0 < d) && writesLocked d rest
  | CacheAct.writeSpotList _ :: rest => decide (0 < d) && writesLocked d rest

/-- The cache states observable by a concurrent reader: the state at each
point of the trace where the writer does not hold the lock (readers
acquire the lock in get_new_bid and get_current_price, so they can run
exactly at those points). -/
def obsStates (regionFullName : String) :
    CacheState → ℕ → List CacheAct → List CacheState
  | st, d, [] => if d = 0 then [st] else []
  | st, d, a :: rest =>
    (if d = 0 then [st] else []) ++
    obsStates regionFullName (applyCacheAct regionFullName st a)
      (match a with
       | CacheAct.acquire => d + 1
       | CacheAct.release => d - 1
       | _ => d)
      rest

/-- Fold step selecting the sample with the most recent timestamp. -/
def pickLatest (acc : Option SpotSample) (s : SpotSample) : Option SpotSample :=
  match acc with
  | Option.none => some s
  | Option.some a => if a.timestamp < s.timestamp then some s else some a

/-- Modelled from the spec: the latest matching spot sample for an
instance type and zone, namely the matching sample with the most recent
timestamp.  This is the specification-side definition against which the
code's first-match scan is compared. -/
def latest_match_spec (l : List SpotSample) (it z : String) : Option SpotSample :=
  (l.filter fun s => decide (s.instanceType = it ∧ s.availabilityZone = z)).foldl
    pickLatest Option.none

/-- Strictly descending timestamps: each sample is strictly newer than all
samples after it.  This is the sortedness invariant the source states for
spot_price_list ("this list is sorted by time", newest first, as
delivered by the spot price history API). -/
def SortedByTimeDesc (l : List SpotSample) : Prop :=
  List.Pairwise (fun a b => b.timestamp < a.timestamp) l

theorem dictGet_dictSet_same (d : List (String × ℚ)) (k : String) (v : ℚ) :
    dictGet (dictSet d k v) k = some v := by
  induction d with
  | nil => simp [dictSet, dictGet]
  | cons p rest ih =>
    obtain ⟨k1, v1⟩ := p
    by_cases h : k1 = k
    · subst h
      simp [dictSet, dictGet]
    · simp [dictSet, dictGet, h, ih]

theorem dictGet_dictSet_other (d : List (String × ℚ)) (k t : String) (v : ℚ)
    (h : k ≠ t) : dictGet (dictSet d k v) t = dictGet d t := by
  induction d with
  | nil => simp [dictSet, dictGet, h]
  | cons p rest ih =>
    obtain ⟨k1, v1⟩ := p
    by_cases h1 : k1 = k
    · subst h1
      simp [dictSet, dictGet, h]
    · by_cases h2 : k1 = t
      · subst h2
        simp [dictSet, dictGet, h1]
      · simp [dictSet, dictGet, h1, h2, ih]

theorem parse_price_row_mono (rf : String) (d : List (String × ℚ))
    (row : PriceRow) (t : String) (old : ℚ) (h : dictGet d t = some old) :
    ∃ v, dictGet (parse_price_row rf d row) t = some v ∧ old ≤ v := by
  unfold parse_price_row
  by_cases hm : rowMatches rf row
  · simp only [hm, if_true]
    by_cases ht : row.instanceType = t
    · rw [ht, h]
      by_cases h0 : row.pricePerUnit = 0
      · exact ⟨old, by simp [h0, h, ht], le_refl old⟩
      · by_cases hlt : old < row.pricePerUnit
        · refine ⟨row.pricePerUnit, ?_, le_of_lt hlt⟩
          simp only [h0, if_false, hlt, if_true]
          exact dictGet_dictSet_same d t row.pricePerUnit
        · exact ⟨old, by simp [h0, hlt, h, ht], le_refl old⟩
    · cases hg : dictGet d row.instanceType with
      | none =>
        refine ⟨old, ?_, le_refl old⟩
        rw [dictGet_dictSet_other d row.instanceType t row.pricePerUnit ht]
        exact h
      | some o =>
        by_cases h0 : row.pricePerUnit = 0
        · exact ⟨old, by simp [h0, h], le_refl old⟩
        · by_cases hlt : o < row.pricePerUnit
          · refine ⟨old, ?_, le_refl old⟩
            simp only [h0, if_false, hlt, if_true]
            rw [dictGet_dictSet_other d row.instanceType t row.pricePerUnit ht]
            exact h
          · exact ⟨old, by simp [h0, hlt, h], le_refl old⟩
  · simp only [hm, if_false]
    exact ⟨old, h, le_refl old⟩

theorem run_pass_mono (rf : String) (rows : List PriceRow)
    (d : List (String × ℚ)) (t : String) (old : ℚ)
    (h : dictGet d t = some old) :
    ∃ v, dictGet (run_pass rf d rows) t = some v ∧ old ≤ v := by
  induction rows generalizing d old with
  | nil => exact ⟨old, h, le_refl old⟩
  | cons row rest ih =>
    obtain ⟨v1, hv1, hle1⟩ := parse_price_row_mono rf d row t old h
    obtain ⟨v, hv, hle⟩ := ih (parse_price_row rf d row) v1 hv1
    exact ⟨v, hv, le_trans hle1 hle⟩

theorem foldl_pickLatest_keep (xs : List SpotSample) (a : SpotSample)
    (h : ∀ x ∈ xs, x.timestamp ≤ a.timestamp) :
    xs.foldl pickLatest (some a) = some a := by
  induction xs with
  | nil => rfl
  | cons x rest ih =>
    have hx : x.timestamp ≤ a.timestamp := h x (List.mem_cons_self x rest)
    have hstep : pickLatest (some a) x = some a := by
      simp [pickLatest, not_lt_of_le hx]
    rw [List.foldl_cons, hstep]
    exact ih fun y hy => h y (List.mem_cons_of_mem x hy)

theorem foldl_pickLatest_mem (xs : List SpotSample) (acc : Option SpotSample)
    (s : SpotSample) (h : xs.foldl pickLatest acc = some s) :
    s ∈ xs ∨ acc = some s := by
  induction xs generalizing acc with
  | nil => exact Or.inr h
  | cons x rest ih =>
    rw [List.foldl_cons] at h
    rcases ih (pickLatest acc x) h with hmem | hacc
    · exact Or.inl (List.mem_cons_of_mem x hmem)
    · unfold pickLatest at hacc
      cases acc with
      | none =>
        simp only [Option.some.injEq] at hacc
        exact Or.inl (hacc ▸ List.mem_cons_self x rest)
      | some a =>
        by_cases hlt : a.timestamp < x.timestamp
        · simp only [hlt, if_true, Option.some.injEq] at hacc
          exact Or.inl (hacc ▸ List.mem_cons_self x rest)
        · simp only [hlt, if_false] at hacc
          exact Or.inr hacc

theorem latest_match_spec_mem (l : List SpotSample) (it z : String)
    (s : SpotSample) (h : latest_match_spec l it z = some s) : s ∈ l := by
  unfold latest_match_spec at h
  rcases foldl_pickLatest_mem _ _ _ h with hmem | habs
  · exact List.mem_of_mem_filter hmem
  · exact absurd habs (by simp)

theorem get_spot_eq_latest (l : List SpotSample) (it z : String)
    (hsort : SortedByTimeDesc l) :
    get_spot_instance_price l it z =
      pyOfOpt ((latest_match_spec l it z).map SpotSample.spotPrice) := by
  induction l with
  | nil => rfl
  | cons s rest ih =>
    unfold SortedByTimeDesc at hsort
    rw [List.pairwise_cons] at hsort
    obtain ⟨hhead, htail⟩ := hsort
    by_cases hm : s.instanceType = it ∧ s.availabilityZone = z
    · have hfold :
          (rest.filter fun x =>
              decide (x.instanceType = it ∧ x.availabilityZone = z)).foldl
            pickLatest (some s) = some s := by
        apply foldl_pickLatest_keep
        intro x hx
        exact le_of_lt (hhead x (List.mem_of_mem_filter hx))
      have hlat : latest_match_spec (s :: rest) it z = some s := by
        unfold latest_match_spec
        rw [List.filter_cons_of_pos (by simpa using hm), List.foldl_cons]
        simpa [pickLatest] using hfold
      rw [hlat]
      simp [get_spot_instance_price, hm, pyOfOpt]
    · have hlat : latest_match_spec (s :: rest) it z =
          latest_match_spec rest it z := by
        unfold latest_match_spec
        rw [List.filter_cons_of_neg (by simpa using hm)]
      rw [hlat]
      simp only [get_spot_instance_price, hm, if_false]
      exact ih htail

theorem goMax_spec (l : List SpotSample) (it : String) (zones : List String)
    (m : ℚ) :
    (goMax l it zones m = m ∨
      ∃ z ∈ zones, get_spot_instance_price l it z =
        PyNum.num (goMax l it zones m)) ∧
    m ≤ goMax l it zones m ∧
    (∀ z ∈ zones, ∀ q, get_spot_instance_price l it z = PyNum.num q →
      q ≤ goMax l it zones m) := by
  induction zones generalizing m with
  | nil =>
    refine ⟨Or.inl rfl, le_refl m, ?_⟩
    intro z hz
    exact absurd hz (List.not_mem_nil z)
  | cons z zs ih =>
    cases hsp : get_spot_instance_price l it z with
    | none =>
      have hgo : goMax l it (z :: zs) m = goMax l it zs m := by
        simp [goMax, hsp]
      obtain ⟨hat, hle, hub⟩ := ih m
      refine ⟨?_, hgo ▸ hle, ?_⟩
      · rcases hat with h1 | ⟨z1, hz1, hq1⟩
        · exact Or.inl (hgo ▸ h1)
        · exact Or.inr ⟨z1, List.mem_cons_of_mem z hz1, hgo ▸ hq1⟩
      · intro z1 hz1 q hq
        rcases List.mem_cons.mp hz1 with rfl | hz1
        · rw [hsp] at hq
          exact absurd hq (by simp)
        · exact hgo ▸ hub z1 hz1 q hq
    | num q0 =>
      have hgo : goMax l it (z :: zs) m =
          goMax l it zs (if m < q0 then q0 else m) := by
        simp [goMax, hsp]
      obtain ⟨hat, hle, hub⟩ := ih (if m < q0 then q0 else m)
      have hm' : m ≤ (if m < q0 then q0 else m) := by
        by_cases h : m < q0
        · simp [h, le_of_lt h]
        · simp [h]
      have hq0' : q0 ≤ (if m < q0 then q0 else m) := by
        by_cases h : m < q0
        · simp [h]
        · simp [h, le_of_not_lt h]
      refine ⟨?_, hgo ▸ le_trans hm' hle, ?_⟩
      · rcases hat with h1 | ⟨z1, hz1, hq1⟩
        · by_cases h : m < q0
          · refine Or.inr ⟨z, List.mem_cons_self z zs, ?_⟩
            rw [hgo, h1]
            simp only [h, if_true]
            exact hsp
          · refine Or.inl ?_
            rw [hgo, h1]
            simp [h]
        · exact Or.inr ⟨z1, List.mem_cons_of_mem z hz1, hgo ▸ hq1⟩
      · intro z1 hz1 q hq
        rcases List.mem_cons.mp hz1 with rfl | hz1
        · rw [hsp] at hq
          have : q = q0 := by
            cases hq
            rfl
          subst this
          exact hgo ▸ le_trans hq0' hle
        · exact hgo ▸ hub z1 hz1 q hq

/-- The long name of the configured region, AWS_REGIONS["us-west-2"]. -/
def usWest : String := "US West (Oregon)"

/-- A csv row that passes the parse_price_row guard for usWest, carrying
the given instance type and price. -/
def demoRow (it : String) (p : ℚ) : PriceRow :=
  ⟨"JRTCKXETXF.6YS6EN2CT7", "OnDemand", "On Demand", "US West (Oregon)",
   "Linux", "NA", "Shared", p, it⟩

/-- A concrete spot price sample. -/
def demoSample : SpotSample := ⟨"c3.2xlarge", "us-west-2a", 891/10000, 10⟩

/-- A second concrete spot price sample, newer than demoSample. -/
def demoSample2 : SpotSample := ⟨"c3.2xlarge", "us-west-2a", 9/100, 11⟩

/-- Claim C4: with the built-in threshold 0.8, basic_bid_strategy returns
a spot bid priced at the on-demand price exactly when the spot price is at
most 0.8 times the on-demand price, and otherwise an on-demand bid with an
empty price; in particular with on-demand price 1.00, spot price exactly
0.80 yields spot at price 1.00, and spot price 0.801 yields on-demand with
the empty price. -/
theorem basic_bid_strategy_threshold_rule (sp od : ℚ) :
    (basic_bid_strategy sp od ⟨0.8⟩ = ⟨BidType.spot, PriceField.val od⟩ ↔
      sp ≤ 0.8 * od) ∧
    (basic_bid_strategy sp od ⟨0.8⟩ = ⟨BidType.onDemand, PriceField.empty⟩ ↔
      ¬ sp ≤ 0.8 * od) ∧
    basic_bid_strategy 0.8 1 ⟨0.8⟩ = ⟨BidType.spot, PriceField.val 1⟩ ∧
    basic_bid_strategy 0.801 1 ⟨0.8⟩ = ⟨BidType.onDemand, PriceField.empty⟩ := by
  refine ⟨?_, ?_, ?_, ?_⟩
  · by_cases h : sp ≤ 0.8 * od <;> simp [basic_bid_strategy, h]
  · by_cases h : sp ≤ 0.8 * od <;> simp [basic_bid_strategy, h]
  · have h : (0.8 : ℚ) ≤ 0.8 * 1 := by norm_num
    simp [basic_bid_strategy, h]
  · have h : ¬ (0.801 : ℚ) ≤ 0.8 * 1 := by norm_num
    simp [basic_bid_strategy, h]
    norm_num

/-- Witness for C4 at spot price 1 and on-demand price 2. -/
theorem basic_bid_strategy_threshold_rule_witness :
    (basic_bid_strategy 1 2 ⟨0.8⟩ = ⟨BidType.spot, PriceField.val 2⟩ ↔
      (1 : ℚ) ≤ 0.8 * 2) ∧
    (basic_bid_strategy 1 2 ⟨0.8⟩ = ⟨BidType.onDemand, PriceField.empty⟩ ↔
      ¬ (1 : ℚ) ≤ 0.8 * 2) ∧
    basic_bid_strategy 0.8 1 ⟨0.8⟩ = ⟨BidType.spot, PriceField.val 1⟩ ∧
    basic_bid_strategy 0.801 1 ⟨0.8⟩ = ⟨BidType.onDemand, PriceField.empty⟩ :=
  basic_bid_strategy_threshold_rule 1 2

/-- The per-row reconciliation behaviour of parse_price_row, split into
its four cases. -/
theorem parse_price_row_rule (rf : String)
    (d : List (String × ℚ)) (row : PriceRow)
    (h : rowMatches rf row = true) :
    (dictGet d row.instanceType = none →
      dictGet (parse_price_row rf d row) row.instanceType =
        some row.pricePerUnit) ∧
    (∀ old, dictGet d row.instanceType = some old → row.pricePerUnit = 0 →
      parse_price_row rf d row = d) ∧
    (∀ old, dictGet d row.instanceType = some old → row.pricePerUnit ≠ 0 →
      old < row.pricePerUnit →
      dictGet (parse_price_row rf d row) row.instanceType =
        some row.pricePerUnit) ∧
    (∀ old, dictGet d row.instanceType = some old → row.pricePerUnit ≠ 0 →
      row.pricePerUnit ≤ old → parse_price_row rf d row = d) := by
  refine ⟨?_, ?_, ?_, ?_⟩
  · intro hg
    simp only [parse_price_row, h, if_true, hg]
    exact dictGet_dictSet_same d row.instanceType row.pricePerUnit
  · intro old hold h0
    simp [parse_price_row, h, hold, h0]
  · intro old hold h0 hlt
    simp only [parse_price_row, h, if_true, hold]
    rw [if_neg h0, if_pos hlt]
    exact dictGet_dictSet_same d row.instanceType row.pricePerUnit
  · intro old hold h0 hle
    simp only [parse_price_row, h, if_true, hold]
    rw [if_neg h0, if_neg (not_lt_of_le hle)]

/-- Claim C5: for a row passing the guard, parse_price_row inserts the new
price when the type has no prior entry, keeps the old value when the new
price is exactly 0, replaces when the new price is strictly greater than
the old, and keeps the old value when the new price is at most the old. -/
theorem parse_price_row_reconciliation_rule (rf : String)
    (d : List (String × ℚ)) (row : PriceRow)
    (h : rowMatches rf row = true) :
    (dictGet d row.instanceType = none →
      dictGet (parse_price_row rf d row) row.instanceType =
        some row.pricePerUnit) ∧
    (∀ old, dictGet d row.instanceType = some old → row.pricePerUnit = 0 →
      parse_price_row rf d row = d) ∧
    (∀ old, dictGet d row.instanceType = some old → row.pricePerUnit ≠ 0 →
      old < row.pricePerUnit →
      dictGet (parse_price_row rf d row) row.instanceType =
        some row.pricePerUnit) ∧
    (∀ old, dictGet d row.instanceType = some old → row.pricePerUnit ≠ 0 →
      row.pricePerUnit ≤ old → parse_price_row rf d row = d) :=
  parse_price_row_rule rf d row h

/-- Witness for C5 on a concrete matching row for m3.large priced 0.50
against a table already holding 1.00 for m3.large. -/
theorem parse_price_row_reconciliation_rule_witness :
    (dictGet [("m3.large", (1 : ℚ))] (demoRow "m3.large" (1/2)).instanceType =
        none →
      dictGet (parse_price_row usWest [("m3.large", 1)]
          (demoRow "m3.large" (1/2))) (demoRow "m3.large" (1/2)).instanceType =
        some (demoRow "m3.large" (1/2)).pricePerUnit) ∧
    (∀ old,
      dictGet [("m3.large", (1 : ℚ))] (demoRow "m3.large" (1/2)).instanceType =
        some old →
      (demoRow "m3.large" (1/2)).pricePerUnit = 0 →
      parse_price_row usWest [("m3.large", 1)] (demoRow "m3.large" (1/2)) =
        [("m3.large", 1)]) ∧
    (∀ old,
      dictGet [("m3.large", (1 : ℚ))] (demoRow "m3.large" (1/2)).instanceType =
        some old →
      (demoRow "m3.large" (1/2)).pricePerUnit ≠ 0 →
      old < (demoRow "m3.large" (1/2)).pricePerUnit →
      dictGet (parse_price_row usWest [("m3.large", 1)]
          (demoRow "m3.large" (1/2))) (demoRow "m3.large" (1/2)).instanceType =
        some (demoRow "m3.large" (1/2)).pricePerUnit) ∧
    (∀ old,
      dictGet [("m3.large", (1 : ℚ))] (demoRow "m3.large" (1/2)).instanceType =
        some old →
      (demoRow "m3.large" (1/2)).pricePerUnit ≠ 0 →
      (demoRow "m3.large" (1/2)).pricePerUnit ≤ old →
      parse_price_row usWest [("m3.large", 1)] (demoRow "m3.large" (1/2)) =
        [("m3.large", 1)]) :=
  parse_price_row_reconciliation_rule usWest [("m3.large", 1)]
    (demoRow "m3.large" (1/2)) rfl

/-- Claim C6: when either cache table is still empty, get_new_bid returns
DEFAULT_BID, which is the on-demand bid carrying no price field; being a
total function of the cache state, it raises no exception. -/
theorem get_new_bid_default_before_warm (d : List (String × ℚ))
    (l : List SpotSample) (zones : List String) (it : String)
    (h : d = [] ∨ l = []) :
    get_new_bid d l zones it = DEFAULT_BID ∧
    DEFAULT_BID = ⟨BidType.onDemand, PriceField.absent⟩ := by
  refine ⟨?_, rfl⟩
  rcases h with rfl | rfl
  · simp [get_new_bid]
  · simp [get_new_bid]

/-- Witness for C6 with an empty on-demand table. -/
theorem get_new_bid_default_before_warm_witness :
    get_new_bid [] [demoSample] ["us-west-2a"] "m3.large" = DEFAULT_BID ∧
    DEFAULT_BID = ⟨BidType.onDemand, PriceField.absent⟩ :=
  get_new_bid_default_before_warm [] [demoSample] ["us-west-2a"] "m3.large"
    (Or.inl rfl)

/-- Claim C10: get_max_spot_prices_from_zones always returns a number
(0 when no requested zone has a matching sample) and never returns
Python None, because under Python 2 a None per-zone price never compares
greater than the running float maximum; hence the spot-price-is-None
branch of get_new_bid cannot be taken. -/
theorem get_max_spot_prices_never_none (l : List SpotSample) (it : String)
    (zones : List String) :
    (∃ q, get_max_spot_prices_from_zones l it zones = PyNum.num q) ∧
    ((∀ z ∈ zones, get_spot_instance_price l it z = PyNum.none) →
      get_max_spot_prices_from_zones l it zones = PyNum.num 0) := by
  constructor
  · exact ⟨goMax l it zones 0, rfl⟩
  · intro hall
    obtain ⟨hat, _, _⟩ := goMax_spec l it zones 0
    rcases hat with h0 | ⟨z, hz, hq⟩
    · unfold get_max_spot_prices_from_zones
      rw [h0]
    · rw [hall z hz] at hq
      exact absurd hq (by simp)

/-- Witness for C10: an empty sample list has no match in any zone, and
the returned value is the number 0, not None. -/
theorem get_max_spot_prices_never_none_witness :
    get_max_spot_prices_from_zones [] "m3.large" ["us-west-2a"] =
      PyNum.num 0 :=
  (get_max_spot_prices_never_none [] "m3.large" ["us-west-2a"]).2
    (by
      intro z hz
      rfl)

/-- Claim C1 (code bug): with both tables non-empty and no spot sample
matching the requested instance type in any requested zone, get_new_bid
does not return DEFAULT_BID: the zone maximum silently degrades to the
float 0.0, so the dead spot-price-is-None check is passed and a spot bid
at the on-demand price is returned. -/
theorem get_new_bid_no_match_returns_spot_bid :
    get_spot_instance_price [demoSample] "m3.large" "us-west-2a" =
      PyNum.none ∧
    get_new_bid [("m3.large", 1)] [demoSample] ["us-west-2a"] "m3.large" =
      ⟨BidType.spot, PriceField.val 1⟩ ∧
    (⟨BidType.spot, PriceField.val 1⟩ : BidInfo) ≠ DEFAULT_BID := by
  refine ⟨?_, ?_, ?_⟩
  · simp [get_spot_instance_price, demoSample]
  · simp [get_new_bid, get_max_spot_prices_from_zones, goMax,
      get_spot_instance_price, get_on_demand_price, dictGet,
      basic_bid_strategy, demoSample]
    norm_num
  · simp [DEFAULT_BID]

/-- Claim C2 (code bug): once a cycle's spot fetch fails after its bounded
retries, SpotInstancePriceUpdater.run re-raises instead of logging, so the
thread exits: the stale cached list is kept, but a subsequent successful
fetch outcome is never applied because no further cycle runs. -/
theorem spot_updater_run_exits_on_failed_cycle :
    spotRun ⟨[demoSample], false⟩
        [Except.error "Error while getting spot-instance price info",
         Except.ok [demoSample2]] =
      ⟨[demoSample], true⟩ ∧
    spotRun ⟨[demoSample], false⟩ [Except.ok [demoSample2]] =
      ⟨[demoSample2], false⟩ :=
  ⟨rfl, rfl⟩

/-- Counterexample to claim C3: after a first pass reporting 1.00 for
m3.large and a second pass reporting 0.50, the cached price is still 1.00,
while reconciling the second pass's rows alone yields 0.50 - the second
pass does not replace the entry for keys it contains. -/
theorem second_pass_lower_price_is_not_applied :
    dictGet (run_pass usWest (run_pass usWest [] [demoRow "m3.large" 1])
        [demoRow "m3.large" (1/2)]) "m3.large" = some 1 ∧
    dictGet (run_pass usWest [] [demoRow "m3.large" (1/2)]) "m3.large" =
      some (1/2) ∧
    some (1 : ℚ) ≠ some (1/2 : ℚ) := by
  refine ⟨?_, rfl, by norm_num⟩
  have e2 : parse_price_row usWest [("m3.large", (1 : ℚ))]
      (demoRow "m3.large" (1/2)) = [("m3.large", 1)] :=
    (parse_price_row_rule usWest [("m3.large", 1)]
        (demoRow "m3.large" (1/2)) rfl).2.2.2 1 rfl
      (by simp only [demoRow]; norm_num) (by simp only [demoRow]; norm_num)
  have e1 : run_pass usWest [] [demoRow "m3.large" 1] =
      [("m3.large", (1 : ℚ))] := rfl
  rw [e1,
    show run_pass usWest [("m3.large", (1 : ℚ))] [demoRow "m3.large" (1/2)] =
        parse_price_row usWest [("m3.large", (1 : ℚ))]
          (demoRow "m3.large" (1/2)) from rfl,
    e2]
  rfl

/-- Claim C3 as amended: the monotonic-increase merge applies across
passes as well, because the dictionary is never cleared between passes: a
second fetch pass reconciles its rows into the table left by the first
pass under the same per-row rule, so an instance type's cached price never
decreases; in particular a lower price reported by a later pass does not
replace the higher cached price. -/
theorem fixed_table_merge_is_monotone_across_passes (rf : String)
    (pass1 pass2 : List PriceRow) (t : String) (old : ℚ)
    (h : dictGet (run_pass rf [] pass1) t = some old) :
    ∃ v, dictGet (run_pass rf (run_pass rf [] pass1) pass2) t = some v ∧
      old ≤ v :=
  run_pass_mono rf pass2 (run_pass rf [] pass1) t old h

/-- Witness for amended C3 on the concrete two passes of the
counterexample. -/
theorem fixed_table_merge_is_monotone_across_passes_witness :
    ∃ v, dictGet (run_pass usWest (run_pass usWest [] [demoRow "m3.large" 1])
        [demoRow "m3.large" (1/2)]) "m3.large" = some v ∧ (1 : ℚ) ≤ v :=
  fixed_table_merge_is_monotone_across_passes usWest [demoRow "m3.large" 1]
    [demoRow "m3.large" (1/2)] "m3.large" 1 rfl

/-- Claim C8: each cycle of OnDemandUpdater.run sleeps the configured
interval after a successful fetch and 2 * SECONDS_PER_MINUTE (two minutes)
after a failed one; a success restores the original interval, so the
sleep of any cycle depends only on that cycle's outcome. -/
theorem on_demand_run_retry_interval (orig : ℕ) (fs : List Bool) (n : ℕ)
    (ok : Bool) (h : fs[n]? = some ok) :
    (on_demand_sleeps orig fs)[n]? =
      some (if ok then orig else 2 * SECONDS_PER_MINUTE) := by
  induction fs generalizing n with
  | nil => simp at h
  | cons f rest ih =>
    cases n with
    | zero =>
      simp only [List.getElem?_cons_zero, Option.some.injEq] at h
      subst h
      simp [on_demand_sleeps]
    | succ m =>
      simp only [List.getElem?_cons_succ] at h
      simp only [on_demand_sleeps, List.getElem?_cons_succ]
      exact ih m h

/-- Witness for C8: with a configured interval of 3600 seconds, a failed
cycle sleeps 120 seconds and the following successful cycle sleeps 3600
again. -/
theorem on_demand_run_retry_interval_witness :
    (on_demand_sleeps 3600 [false, true])[0]? = some 120 ∧
    (on_demand_sleeps 3600 [false, true])[1]? = some 3600 :=
  ⟨on_demand_run_retry_interval 3600 [false, true] 0 false rfl,
   on_demand_run_retry_interval 3600 [false, true] 1 true rfl⟩

/-- Claim C9 (code bug): the on-demand updater mutates the shared price
dictionary once per row while holding no lock, so a reader (which takes
the lock) can observe an intermediate table that is neither the pre-pass
nor the post-pass table; by contrast the spot list swap does hold the
lock and exposes only the pre- and post-write states. -/
theorem on_demand_write_unlocked_partial_state_observable :
    writesLocked 0 (onDemandPassActs [demoRow "t1" 1, demoRow "t2" 2]) =
      false ∧
    obsStates usWest (([], [demoSample]) : CacheState) 0
        (onDemandPassActs [demoRow "t1" 1, demoRow "t2" 2]) =
      [(([], [demoSample]) : CacheState),
       ([("t1", 1)], [demoSample]),
       ([("t1", 1), ("t2", 2)], [demoSample])] ∧
    (([("t1", 1)], [demoSample]) : CacheState) ≠ ([], [demoSample]) ∧
    (([("t1", 1)], [demoSample]) : CacheState) ≠
      ([("t1", 1), ("t2", 2)], [demoSample]) ∧
    writesLocked 0 (spotWriteActs [demoSample2]) = true ∧
    obsStates usWest (([], [demoSample]) : CacheState) 0
        (spotWriteActs [demoSample2]) =
      [(([], [demoSample]) : CacheState), ([], [demoSample2])] := by
  refine ⟨rfl, rfl, ?_, ?_, rfl, rfl⟩
  · simp
  · simp

/-- Claim C7: when the spot price list is sorted newest-first (the cache
invariant the source states), prices are non-negative, and at least one
requested zone has a matching sample, the value used by get_new_bid is the
maximum over the requested zones of the latest matching sample's price -
latest meaning the matching sample with the most recent timestamp - and a
zone with no matching sample contributes nothing. -/
theorem get_max_is_max_of_latest_matches (l : List SpotSample) (it : String)
    (zones : List String) (hsort : SortedByTimeDesc l)
    (hpos : ∀ s ∈ l, 0 ≤ s.spotPrice)
    (hmatch : ∃ z ∈ zones, (latest_match_spec l it z).isSome = true) :
    ∃ q, get_max_spot_prices_from_zones l it zones = PyNum.num q ∧
      (∃ z ∈ zones,
        (latest_match_spec l it z).map SpotSample.spotPrice = some q) ∧
      (∀ z ∈ zones, ∀ p,
        (latest_match_spec l it z).map SpotSample.spotPrice = some p →
          p ≤ q) := by
  obtain ⟨z0, hz0, hsome⟩ := hmatch
  obtain ⟨s0, hs0⟩ := Option.isSome_iff_exists.mp hsome
  have hkey : ∀ z, get_spot_instance_price l it z =
      pyOfOpt ((latest_match_spec l it z).map SpotSample.spotPrice) :=
    fun z => get_spot_eq_latest l it z hsort
  obtain ⟨hat, hle0, hub⟩ := goMax_spec l it zones 0
  refine ⟨goMax l it zones 0, rfl, ?_, ?_⟩
  · rcases hat with h0 | ⟨z, hz, hq⟩
    · have hsp0 : get_spot_instance_price l it z0 = PyNum.num s0.spotPrice := by
        rw [hkey z0, hs0]
        rfl
      have hle : s0.spotPrice ≤ goMax l it zones 0 := hub z0 hz0 _ hsp0
      have hge : 0 ≤ s0.spotPrice :=
        hpos s0 (latest_match_spec_mem l it z0 s0 hs0)
      have heq : s0.spotPrice = goMax l it zones 0 :=
        le_antisymm hle (by rw [h0]; exact hge)
      exact ⟨z0, hz0, by rw [hs0]; simp [heq]⟩
    · refine ⟨z, hz, ?_⟩
      have hk := hkey z
      rw [hq] at hk
      cases hmap : (latest_match_spec l it z).map SpotSample.spotPrice with
      | none =>
        rw [hmap] at hk
        exact absurd hk.symm (by simp [pyOfOpt])
      | some p =>
        rw [hmap] at hk
        simp only [pyOfOpt, PyNum.num.injEq] at hk
        rw [hk]
  · intro z hz p hp
    have hsp : get_spot_instance_price l it z = PyNum.num p := by
      rw [hkey z, hp]
      rfl
    exact hub z hz p hsp

/-- Witness for C7 on the spec's example: samples for type X in zone B at
0.55 (newer) and zone A at 0.40, zones A and B; the value used is 0.55. -/
theorem get_max_is_max_of_latest_matches_witness :
    ∃ q, get_max_spot_prices_from_zones
        [⟨"X", "B", 55/100, 2⟩, ⟨"X", "A", 40/100, 1⟩] "X" ["A", "B"] =
          PyNum.num q ∧
      (∃ z ∈ ["A", "B"],
        (latest_match_spec [⟨"X", "B", 55/100, 2⟩, ⟨"X", "A", 40/100, 1⟩]
            "X" z).map SpotSample.spotPrice = some q) ∧
      (∀ z ∈ ["A", "B"], ∀ p,
        (latest_match_spec [⟨"X", "B", 55/100, 2⟩, ⟨"X", "A", 40/100, 1⟩]
            "X" z).map SpotSample.spotPrice = some p → p ≤ q) :=
  get_max_is_max_of_latest_matches
    [⟨"X", "B", 55/100, 2⟩, ⟨"X", "A", 40/100, 1⟩] "X" ["A", "B"]
    (by
      unfold SortedByTimeDesc
      simp)
    (by
      intro s hs
      simp only [List.mem_cons, List.not_mem_nil, or_false] at hs
      rcases hs with rfl | rfl <;> norm_num)
    ⟨"A", by simp, rfl⟩

end AwsBidAdvisor
